import Mathlib

/-!
# Verification of `splash/pool.py` (`RenderPool`)

This file gives a shallow embedding of the `RenderPool` class from
`splash/pool.py` and proves properties about it.

`RenderPool` is a bounded-concurrency execution pool built on Twisted's
single-threaded cooperative event loop.  The embedding models the pool as a
deterministic transition system over an explicit `PoolState`, driven by two
kinds of external events:

* `Event.submit req`   — a caller invokes `RenderPool.render(...)`;
* `Event.complete n b` — the render currently executing in slot `n` settles
  its own deferred (`b = true` for success, `b = false` for failure).

Because Twisted callbacks fire synchronously within one logical thread, each
event's entire synchronous cascade (queue hand-off, `_start_render`, the
errback path of a synchronously raising `start`, `_close_render`,
re-arming `_wait_for_render`) is a pure function of the previous state, and
is computed by `RenderPool.step`.

Modelling decisions:
* `DeferredQueue` is a pair of lists: `pending` (queued jobs, tail-appended)
  and `waiting` (slots blocked in `queue.get()`, FIFO).  `put` hands the job
  to the first waiter when one exists, otherwise appends to `pending`;
  `get` pops the oldest pending job when one exists, otherwise appends the
  caller to `waiting`.  This is exactly Twisted's `DeferredQueue` discipline.
* A render class's behaviour is abstracted by two flags on the job:
  `startRaises` (does `render.start(**kwargs)` raise synchronously?) and
  `closeRaises` (does `render.close()` raise during cleanup?).  The eventual
  outcome of a non-raising render is carried by the `complete` event.
* The collaborator contract of the spec is assumed: `render_options.get_url()`
  returns a string and does not raise.  The separate model at the bottom of
  the file (`DbgRender`, `debug_update_exc`) drops this assumption in order
  to analyse the exception structure of `RenderPool.debug_update` itself.
* Ghost trace fields (`starts`, `results`, `cleaned`, `cancels`, `closes`,
  `startFaults`, `cleanupErrors`, `snapshots`, `submitted`) record the
  observable history; the Python object identity of a render is represented
  by the job's `jid`.
* The redis store is abstracted by `storeFails`: whether
  `self.debug_dbc.set(...)` raises (the store is unreachable).  A successful
  write appends the serialized url list to `snapshots`.
-/

namespace Splash

/-- A job as it sits in the `DeferredQueue`: the tuple
`(rendercls, render_options, splash_proxy_factory, kwargs, pool_d)` of
`RenderPool.render`.  `jid` is the identity of the job (its `pool_d` /
render object), `url` is `render_options.get_url()`, `proxyResult` is the
already-applied `splash_proxy_factory`, and the two flags abstract the
behaviour of `rendercls`. -/
structure QueuedJob where
  jid : Nat
  url : String
  proxyResult : Option String
  startRaises : Bool
  closeRaises : Bool
deriving DecidableEq, Repr

/-- The arguments of one `RenderPool.render(rendercls, render_options, proxy,
**kwargs)` call, before the proxy factory has been applied. -/
structure SubmitReq where
  jid : Nat
  url : String
  proxySpec : Option String
  startRaises : Bool
  closeRaises : Bool
deriving DecidableEq, Repr

/-- Construction-time configuration of a `RenderPool`: the `__init__`
arguments plus the behaviour of the external redis store. -/
structure PoolConfig where
  slots : Nat
  splash_proxy_factory_cls : Option (Option String → Option String)
  js_profiles_path : String
  verbosity : Nat
  storeFails : Bool

/-- The complete observable state of a `RenderPool` plus ghost history. -/
@[ext] structure PoolState where
  /-- `DeferredQueue.pending`: queued jobs, oldest first. -/
  pending : List QueuedJob
  /-- `DeferredQueue.waiting`: slots blocked in `queue.get()`, FIFO. -/
  waiting : List Nat
  /-- `self.active`, with the slot that runs each render recorded. -/
  active : List (Nat × QueuedJob)
  /-- order in which `_start_render` began executing jobs. -/
  starts : List Nat
  /-- resolutions of the callers' `pool_d` deferreds (jid, success?). -/
  results : List (Nat × Bool)
  /-- jobs for which `_close_render` has executed. -/
  cleaned : List Nat
  /-- `render.deferred.cancel()` invocations. -/
  cancels : List Nat
  /-- `render.close()` invocations. -/
  closes : List Nat
  /-- synchronous `render.start` exceptions re-raised out of `_start_render`. -/
  startFaults : List Nat
  /-- exceptions raised by `render.close()` during `_close_render`. -/
  cleanupErrors : List Nat
  /-- url lists successfully written to the debug store. -/
  snapshots : List (List String)
  /-- ghost: every job ever passed through `render()`, in call order. -/
  submitted : List QueuedJob
deriving DecidableEq, Repr

/-- The state of a pool before any slot loop is registered. -/
def emptyPool : PoolState :=
  ⟨[], [], [], [], [], [], [], [], [], [], [], []⟩

/-- External stimuli of the pool. -/
inductive Event where
  | submit (req : SubmitReq)
  | complete (slot : Nat) (ok : Bool)
deriving DecidableEq, Repr

namespace RenderPool

/-- `self.splash_proxy_factory_cls or (lambda profile_name: None)`
from `RenderPool.__init__`: the configured factory class if any, otherwise
the pass-through returning `None`. -/
def proxy_factory_cls (cfg : PoolConfig) : Option String → Option String :=
  cfg.splash_proxy_factory_cls.getD (fun _ => none)

/-- The url list of `RenderPool.debug_update`:
`[render.render_options.get_url() for render in self.active]`. -/
def snapshotUrls (active : List (Nat × QueuedJob)) : List String :=
  active.map (fun p => p.2.url)

/-- `RenderPool.debug_update` under the collaborator contract
(`get_url` returns a string): serializes the active urls and writes them to
the store; a store failure is caught and logged, leaving the state
unchanged. -/
def debug_update (cfg : PoolConfig) (s : PoolState) : PoolState :=
  if cfg.storeFails then s
  else { s with snapshots := s.snapshots ++ [snapshotUrls s.active] }

/-- `RenderPool._close_render`: remove the render from the active set,
refresh the debug snapshot, cancel the render's deferred (a no-op here,
since the deferred has already fired), and call `render.close()` (recording
the exception if `close` raises). -/
def close_render (cfg : PoolConfig) (slot : Nat) (j : QueuedJob)
    (s : PoolState) : PoolState :=
  let s1 := { s with active := s.active.erase (slot, j),
                     cleaned := s.cleaned ++ [j.jid] }
  let s2 := debug_update cfg s1
  let s3 := { s2 with cancels := s2.cancels ++ [j.jid] }
  { s3 with closes := s3.closes ++ [j.jid],
            cleanupErrors :=
              if j.closeRaises then s3.cleanupErrors ++ [j.jid]
              else s3.cleanupErrors }

/-- `RenderPool._start_render` for one dequeued job: construct the render,
add it to the active set, refresh the debug snapshot, chain
`render.deferred` to `pool_d`, and call `render.start(**kwargs)`.
If `start` raises synchronously, `render.deferred.errback()` resolves
`pool_d` with a failure, which immediately runs `_error` and
`_close_render` on `pool_d`'s chain, and the exception is re-raised out of
`_start_render` (recorded in `startFaults`). -/
def start_render (cfg : PoolConfig) (j : QueuedJob) (slot : Nat)
    (s : PoolState) : PoolState :=
  let s1 := debug_update cfg
    { s with starts := s.starts ++ [j.jid],
             active := s.active ++ [(slot, j)] }
  if j.startRaises then
    let s2 := { s1 with results := s1.results ++ [(j.jid, false)],
                        startFaults := s1.startFaults ++ [j.jid] }
    close_render cfg slot j s2
  else s1

/-- `RenderPool._wait_for_render` for slot `slot`: `queue.get()`.
The first argument is the queue's pending list (always equal to
`s.pending`; it is passed explicitly so that the recursion is structural).
With no pending job the slot joins the queue's waiting list; otherwise the
oldest pending job is popped and `_start_render` runs synchronously.  When
`start` raises, the exception lands in the slot's deferred chain, whose
`addBoth(self._wait_for_render, slot)` re-arms the slot at once — hence the
recursion. -/
def wait_for_render (cfg : PoolConfig) (slot : Nat) :
    List QueuedJob → PoolState → PoolState
  | [], s => { s with waiting := s.waiting ++ [slot] }
  | j :: rest, s =>
      let s1 := start_render cfg j slot { s with pending := rest }
      if j.startRaises then wait_for_render cfg slot rest s1 else s1

/-- The job built by `RenderPool.render` from a submission: the proxy spec
is passed through `self.splash_proxy_factory_cls`. -/
def jobOf (cfg : PoolConfig) (req : SubmitReq) : QueuedJob :=
  ⟨req.jid, req.url, proxy_factory_cls cfg req.proxySpec,
   req.startRaises, req.closeRaises⟩

/-- One event of the pool's event loop.

* `submit req` is `RenderPool.render`: build the job, `queue.put` it
  (handing it synchronously to the first waiting slot when one exists, which
  runs `_start_render` at once) and return `pool_d`.
* `complete slot ok` fires the deferred of the render running in `slot`:
  `chainDeferred` resolves `pool_d` with the outcome, `pool_d`'s chain runs
  `_error`/`_close_render`, and then the slot's own deferred resumes and
  `_wait_for_render` re-arms the slot.  A `complete` for a slot with no
  running render has no effect (there is no such deferred to fire). -/
def step (cfg : PoolConfig) (s : PoolState) : Event → PoolState
  | .submit req =>
      let j := jobOf cfg req
      let s0 := { s with submitted := s.submitted ++ [j] }
      match s0.waiting with
      | [] => { s0 with pending := s0.pending ++ [j] }
      | w :: ws =>
          let s1 := start_render cfg j w { s0 with waiting := ws }
          if j.startRaises then wait_for_render cfg w s1.pending s1 else s1
  | .complete slot ok =>
      match s.active.find? (fun p => p.1 == slot) with
      | none => s
      | some (sl, j) =>
          let s1 := { s with results := s.results ++ [(j.jid, ok)] }
          let s2 := close_render cfg sl j s1
          wait_for_render cfg sl s2.pending s2

/-- `RenderPool.__init__`: register the `slots` slot loops with the queue,
in order, each performing its initial `_wait_for_render(None, n)` on the
still-empty queue. -/
def initPool (cfg : PoolConfig) : PoolState :=
  (List.range cfg.slots).foldl
    (fun s n => wait_for_render cfg n s.pending s) emptyPool

/-- Run a pool from construction through a sequence of events. -/
def run (cfg : PoolConfig) (events : List Event) : PoolState :=
  events.foldl (step cfg) (initPool cfg)

/-! ## Basic unfolding lemmas -/

section Unfolding

variable (cfg : PoolConfig)

@[simp] theorem debug_update_pending (s : PoolState) :
    (debug_update cfg s).pending = s.pending := by
  unfold debug_update; split <;> rfl

@[simp] theorem debug_update_waiting (s : PoolState) :
    (debug_update cfg s).waiting = s.waiting := by
  unfold debug_update; split <;> rfl

@[simp] theorem debug_update_active (s : PoolState) :
    (debug_update cfg s).active = s.active := by
  unfold debug_update; split <;> rfl

@[simp] theorem debug_update_starts (s : PoolState) :
    (debug_update cfg s).starts = s.starts := by
  unfold debug_update; split <;> rfl

@[simp] theorem debug_update_results (s : PoolState) :
    (debug_update cfg s).results = s.results := by
  unfold debug_update; split <;> rfl

@[simp] theorem debug_update_cleaned (s : PoolState) :
    (debug_update cfg s).cleaned = s.cleaned := by
  unfold debug_update; split <;> rfl

@[simp] theorem debug_update_cancels (s : PoolState) :
    (debug_update cfg s).cancels = s.cancels := by
  unfold debug_update; split <;> rfl

@[simp] theorem debug_update_closes (s : PoolState) :
    (debug_update cfg s).closes = s.closes := by
  unfold debug_update; split <;> rfl

@[simp] theorem debug_update_startFaults (s : PoolState) :
    (debug_update cfg s).startFaults = s.startFaults := by
  unfold debug_update; split <;> rfl

@[simp] theorem debug_update_cleanupErrors (s : PoolState) :
    (debug_update cfg s).cleanupErrors = s.cleanupErrors := by
  unfold debug_update; split <;> rfl

@[simp] theorem debug_update_submitted (s : PoolState) :
    (debug_update cfg s).submitted = s.submitted := by
  unfold debug_update; split <;> rfl

theorem debug_update_snapshots (s : PoolState) :
    (debug_update cfg s).snapshots =
      if cfg.storeFails then s.snapshots
      else s.snapshots ++ [snapshotUrls s.active] := by
  unfold debug_update; split <;> rfl

/-- Normal form of `_close_render`. -/
theorem close_render_eq (slot : Nat) (j : QueuedJob) (s : PoolState) :
    close_render cfg slot j s =
      { s with active := s.active.erase (slot, j),
               cleaned := s.cleaned ++ [j.jid],
               cancels := s.cancels ++ [j.jid],
               closes := s.closes ++ [j.jid],
               cleanupErrors :=
                 if j.closeRaises then s.cleanupErrors ++ [j.jid]
                 else s.cleanupErrors,
               snapshots :=
                 if cfg.storeFails then s.snapshots
                 else s.snapshots ++
                   [snapshotUrls (s.active.erase (slot, j))] } := by
  unfold close_render debug_update
  by_cases h : cfg.storeFails <;> simp [h]

/-- Normal form of `_start_render` when `start` does not raise. -/
theorem start_render_eq_ok (j : QueuedJob) (slot : Nat) (s : PoolState)
    (h : j.startRaises = false) :
    start_render cfg j slot s =
      { s with starts := s.starts ++ [j.jid],
               active := s.active ++ [(slot, j)],
               snapshots :=
                 if cfg.storeFails then s.snapshots
                 else s.snapshots ++
                   [snapshotUrls (s.active ++ [(slot, j)])] } := by
  unfold start_render debug_update
  by_cases hs : cfg.storeFails <;> simp [h, hs]

/-- Normal form of `_start_render` when `start` raises synchronously. -/
theorem start_render_eq_raise (j : QueuedJob) (slot : Nat) (s : PoolState)
    (h : j.startRaises = true) :
    start_render cfg j slot s =
      { s with starts := s.starts ++ [j.jid],
               active := (s.active ++ [(slot, j)]).erase (slot, j),
               results := s.results ++ [(j.jid, false)],
               startFaults := s.startFaults ++ [j.jid],
               cleaned := s.cleaned ++ [j.jid],
               cancels := s.cancels ++ [j.jid],
               closes := s.closes ++ [j.jid],
               cleanupErrors :=
                 if j.closeRaises then s.cleanupErrors ++ [j.jid]
                 else s.cleanupErrors,
               snapshots :=
                 if cfg.storeFails then s.snapshots
                 else s.snapshots ++
                   [snapshotUrls (s.active ++ [(slot, j)]),
                    snapshotUrls ((s.active ++ [(slot, j)]).erase (slot, j))] } := by
  by_cases hs : cfg.storeFails <;>
    simp [start_render, close_render_eq, debug_update, h, hs, List.append_assoc]

@[simp] theorem wait_for_render_nil (slot : Nat) (s : PoolState) :
    wait_for_render cfg slot [] s = { s with waiting := s.waiting ++ [slot] } :=
  rfl

theorem wait_for_render_cons (slot : Nat) (j : QueuedJob)
    (rest : List QueuedJob) (s : PoolState) :
    wait_for_render cfg slot (j :: rest) s =
      (let s1 := start_render cfg j slot { s with pending := rest }
       if j.startRaises then wait_for_render cfg slot rest s1 else s1) :=
  rfl

end Unfolding

/-! ## The pool invariant -/

/-- The jids of a list of jobs. -/
def jidsOf (l : List QueuedJob) : List Nat := l.map (·.jid)

/-- The slot indices of the active set. -/
def activeSlots (l : List (Nat × QueuedJob)) : List Nat := l.map Prod.fst

/-- The jids of the active set. -/
def activeJids (l : List (Nat × QueuedJob)) : List Nat :=
  l.map (fun p => p.2.jid)

@[simp] theorem jidsOf_nil : jidsOf [] = [] := rfl

@[simp] theorem jidsOf_append (l₁ l₂ : List QueuedJob) :
    jidsOf (l₁ ++ l₂) = jidsOf l₁ ++ jidsOf l₂ := List.map_append _ _ _

@[simp] theorem jidsOf_cons (j : QueuedJob) (l : List QueuedJob) :
    jidsOf (j :: l) = j.jid :: jidsOf l := rfl

@[simp] theorem activeSlots_nil : activeSlots [] = [] := rfl

@[simp] theorem activeSlots_append (l₁ l₂ : List (Nat × QueuedJob)) :
    activeSlots (l₁ ++ l₂) = activeSlots l₁ ++ activeSlots l₂ :=
  List.map_append _ _ _

@[simp] theorem activeJids_nil : activeJids [] = [] := rfl

@[simp] theorem activeJids_append (l₁ l₂ : List (Nat × QueuedJob)) :
    activeJids (l₁ ++ l₂) = activeJids l₁ ++ activeJids l₂ :=
  List.map_append _ _ _

/-- The invariant maintained by every pool state reachable from
construction:

* `nodup`/`slotCount`: the `cfg.slots` slot loops are exactly distributed
  between the queue's waiting list and the active set, so the active set has
  at most `cfg.slots` members and no slot runs two renders at once;
* `waitEmpty`: a job is only left pending while no slot is waiting
  (Twisted's `DeferredQueue` hands a new job straight to a waiter);
* `fifo`: the jobs started so far, in start order, followed by the still
  pending jobs, in queue order, are exactly the submitted jobs in
  submission order — dequeue order is arrival order;
* `cleanedRes`: `_close_render` has run exactly once per resolved `pool_d`,
  in resolution order;
* `cancelsEq`/`closesEq`: every cleanup cancelled the render's deferred and
  called `close()`, and nothing else did;
* `counts`: every submitted job is, exclusively, pending, active, or
  cleaned up — submission multiplicities are preserved;
* `snapCount`: with a reachable store, the debug snapshot was rewritten at
  every active-set mutation (one add per start, one removal per cleanup). -/
structure Inv (cfg : PoolConfig) (s : PoolState) : Prop where
  nodup : (s.waiting ++ activeSlots s.active).Nodup
  slotCount : s.waiting.length + s.active.length = cfg.slots
  waitEmpty : s.waiting ≠ [] → s.pending = []
  fifo : s.starts ++ jidsOf s.pending = jidsOf s.submitted
  cleanedRes : s.cleaned = s.results.map Prod.fst
  cancelsEq : s.cancels = s.cleaned
  closesEq : s.closes = s.cleaned
  counts : ∀ i : Nat, (jidsOf s.submitted).count i =
    ((jidsOf s.pending).count i + (activeJids s.active).count i) +
      s.cleaned.count i
  snapCount : cfg.storeFails = false →
    s.snapshots.length = s.starts.length + s.cleaned.length

/-- The invariant at the moment `_wait_for_render` is entered for `slot`:
the slot is registered neither as waiting nor as active (it is about to
re-arm), and `l` is the queue's pending list. -/
structure MidInv (cfg : PoolConfig) (slot : Nat) (l : List QueuedJob)
    (s : PoolState) : Prop where
  pendEq : s.pending = l
  freshW : slot ∉ s.waiting
  freshA : slot ∉ activeSlots s.active
  nodup : (s.waiting ++ activeSlots s.active).Nodup
  slotCount : s.waiting.length + s.active.length + 1 = cfg.slots
  waitEmpty : s.waiting ≠ [] → s.pending = []
  fifo : s.starts ++ jidsOf s.pending = jidsOf s.submitted
  cleanedRes : s.cleaned = s.results.map Prod.fst
  cancelsEq : s.cancels = s.cleaned
  closesEq : s.closes = s.cleaned
  counts : ∀ i : Nat, (jidsOf s.submitted).count i =
    ((jidsOf s.pending).count i + (activeJids s.active).count i) +
      s.cleaned.count i
  snapCount : cfg.storeFails = false →
    s.snapshots.length = s.starts.length + s.cleaned.length

@[simp] theorem activeSlots_cons (p : Nat × QueuedJob)
    (l : List (Nat × QueuedJob)) :
    activeSlots (p :: l) = p.1 :: activeSlots l := rfl

@[simp] theorem activeJids_cons (p : Nat × QueuedJob)
    (l : List (Nat × QueuedJob)) :
    activeJids (p :: l) = p.2.jid :: activeJids l := rfl

/-- A fresh element appended at the back of the first part keeps an append
nodup. -/
theorem nodup_snoc_left {w a : List Nat} {x : Nat}
    (hn : (w ++ a).Nodup) (hw : x ∉ w) (ha : x ∉ a) :
    ((w ++ [x]) ++ a).Nodup := by
  have he : (w ++ [x]) ++ a = w ++ x :: a := by simp
  rw [he, List.nodup_middle]
  exact List.nodup_cons.mpr (by simp [List.mem_append, hw, ha, hn])

/-- A fresh element appended at the back of the second part keeps an append
nodup. -/
theorem nodup_snoc_right {w a : List Nat} {x : Nat}
    (hn : (w ++ a).Nodup) (hw : x ∉ w) (ha : x ∉ a) :
    (w ++ (a ++ [x])).Nodup := by
  have he : w ++ (a ++ [x]) = (w ++ a) ++ x :: [] := by simp
  rw [he, List.nodup_middle]
  exact List.nodup_cons.mpr (by simp [List.mem_append, hw, ha, hn])

/-- `List.perm_cons_erase` for any lawful `BEq` instance. -/
theorem perm_cons_erase_beq {α : Type} [BEq α] [LawfulBEq α] {a : α} :
    ∀ {l : List α}, a ∈ l → List.Perm l (a :: l.erase a)
  | x :: t, h => by
    by_cases hx : x = a
    · subst hx; rw [List.erase_cons_head]
    · rw [List.erase_cons_tail]
      · have hmem : a ∈ t := by
          rcases List.mem_cons.mp h with h1 | h1
          · exact absurd h1.symm hx
          · exact h1
        exact ((perm_cons_erase_beq hmem).cons x).trans
          (List.Perm.swap a x (t.erase a))
      · simp [hx]

@[simp] theorem start_render_pending (cfg : PoolConfig) (j : QueuedJob)
    (slot : Nat) (s : PoolState) :
    (start_render cfg j slot s).pending = s.pending := by
  cases hj : j.startRaises
  · rw [start_render_eq_ok cfg j slot s hj]
  · rw [start_render_eq_raise cfg j slot s hj]

/-- `_wait_for_render` turns the mid-transition invariant back into the
full pool invariant: the slot re-arms (joining the waiting list or
synchronously starting pending jobs, cleaning up any of them whose `start`
raises) and the books stay balanced. -/
theorem wait_inv (cfg : PoolConfig) (slot : Nat) :
    ∀ (l : List QueuedJob) (s : PoolState), MidInv cfg slot l s →
      Inv cfg (wait_for_render cfg slot l s)
  | [], s, m => by
    rw [wait_for_render_nil]
    refine { nodup := ?_, slotCount := ?_, waitEmpty := ?_, fifo := m.fifo,
             cleanedRes := m.cleanedRes, cancelsEq := m.cancelsEq,
             closesEq := m.closesEq, counts := m.counts,
             snapCount := m.snapCount }
    · exact nodup_snoc_left m.nodup m.freshW m.freshA
    · simp only [List.length_append, List.length_singleton]
      have := m.slotCount
      omega
    · intro _
      exact m.pendEq
  | j :: rest, s, m => by
    have hw : s.waiting = [] := by
      by_contra hne
      have hp := m.waitEmpty hne
      rw [m.pendEq] at hp
      exact absurd hp (List.cons_ne_nil j rest)
    rw [wait_for_render_cons]
    cases hj : j.startRaises
    · simp only [hj, Bool.false_eq_true, if_false]
      rw [start_render_eq_ok cfg j slot _ hj]
      refine { nodup := ?_, slotCount := ?_, waitEmpty := ?_, fifo := ?_,
               cleanedRes := m.cleanedRes, cancelsEq := m.cancelsEq,
               closesEq := m.closesEq, counts := ?_, snapCount := ?_ }
      · simp only [activeSlots_append, activeSlots_cons, activeSlots_nil]
        exact nodup_snoc_right m.nodup m.freshW m.freshA
      · simp only [List.length_append, List.length_singleton]
        have := m.slotCount
        omega
      · intro hne
        exact absurd hw hne
      · have hf := m.fifo
        rw [m.pendEq] at hf
        simpa [List.append_assoc] using hf
      · intro i
        have hc := m.counts i
        rw [m.pendEq] at hc
        simp only [jidsOf_cons, activeJids_append, activeJids_cons,
          activeJids_nil, List.count_append, List.count_cons,
          List.count_nil] at hc ⊢
        omega
      · intro hsf
        have hs := m.snapCount hsf
        simp only [hsf, Bool.false_eq_true, if_false, List.length_append,
          List.length_singleton]
        omega
    · simp only [hj, if_true]
      have hnotin : (slot, j) ∉ s.active := fun hmem =>
        m.freshA (List.mem_map_of_mem Prod.fst hmem)
      have herase : (s.active ++ [(slot, j)]).erase (slot, j) = s.active := by
        rw [List.erase_append_right _ hnotin, List.erase_cons_head]
        simp
      apply wait_inv cfg slot rest
      rw [start_render_eq_raise cfg j slot _ hj]
      refine { pendEq := rfl, freshW := m.freshW, freshA := ?_,
               nodup := ?_, slotCount := ?_, waitEmpty := ?_, fifo := ?_,
               cleanedRes := ?_, cancelsEq := ?_, closesEq := ?_,
               counts := ?_, snapCount := ?_ }
      · simp only [herase]
        exact m.freshA
      · simp only [herase]
        exact m.nodup
      · simp only [herase]
        exact m.slotCount
      · intro hne
        exact absurd hw hne
      · have hf := m.fifo
        rw [m.pendEq] at hf
        simpa [List.append_assoc] using hf
      · rw [m.cleanedRes]
        simp
      · rw [m.cancelsEq]
      · rw [m.closesEq]
      · intro i
        have hc := m.counts i
        rw [m.pendEq] at hc
        simp only [herase, jidsOf_cons, List.count_append, List.count_cons,
          List.count_nil] at hc ⊢
        omega
      · intro hsf
        have hs := m.snapCount hsf
        simp only [hsf, Bool.false_eq_true, if_false, List.length_append,
          List.length_cons, List.length_singleton, List.length_nil]
        omega

/-- Every event of the pool's event loop preserves the invariant. -/
theorem step_inv (cfg : PoolConfig) (s : PoolState) (e : Event)
    (h : Inv cfg s) : Inv cfg (step cfg s e) := by
  cases e with
  | submit req =>
    rcases hw : s.waiting with _ | ⟨w, ws⟩
    · have hn := h.nodup
      have hsl := h.slotCount
      rw [hw] at hn hsl
      simp only [step, hw]
      refine { nodup := hn, slotCount := hsl, waitEmpty := ?_,
               fifo := ?_, cleanedRes := h.cleanedRes,
               cancelsEq := h.cancelsEq, closesEq := h.closesEq,
               counts := ?_, snapCount := h.snapCount }
      · intro hne
        exact absurd rfl hne
      · rw [jidsOf_append, jidsOf_append, ← List.append_assoc, h.fifo]
      · intro i
        have hc := h.counts i
        simp only [jidsOf_append, jidsOf_cons, jidsOf_nil, List.count_append,
          List.count_cons, List.count_nil] at hc ⊢
        omega
    · have hp : s.pending = [] := h.waitEmpty (by rw [hw]; simp)
      have hn := h.nodup
      rw [hw, List.cons_append, List.nodup_cons] at hn
      obtain ⟨hwnotin, hnd⟩ := hn
      have hnotinW : w ∉ ws := fun hx =>
        hwnotin (List.mem_append.mpr (Or.inl hx))
      have hnotinA : w ∉ activeSlots s.active := fun hx =>
        hwnotin (List.mem_append.mpr (Or.inr hx))
      have hsl := h.slotCount
      rw [hw] at hsl
      simp only [step, hw]
      cases hj : (jobOf cfg req).startRaises
      · simp only [hj, Bool.false_eq_true, if_false]
        rw [start_render_eq_ok cfg _ w _ hj]
        refine { nodup := ?_, slotCount := ?_, waitEmpty := ?_, fifo := ?_,
                 cleanedRes := h.cleanedRes, cancelsEq := h.cancelsEq,
                 closesEq := h.closesEq, counts := ?_, snapCount := ?_ }
        · simp only [activeSlots_append, activeSlots_cons, activeSlots_nil]
          exact nodup_snoc_right hnd hnotinW hnotinA
        · simp only [List.length_append, List.length_singleton,
            List.length_cons, List.length_nil] at hsl ⊢
          omega
        · intro _
          exact hp
        · have hf := h.fifo
          rw [hp] at hf
          rw [hp]
          simpa using hf
        · intro i
          have hc := h.counts i
          rw [hp] at hc ⊢
          simp only [jidsOf_append, jidsOf_cons, jidsOf_nil,
            activeJids_append, activeJids_cons, activeJids_nil,
            List.count_append, List.count_cons, List.count_nil] at hc ⊢
          omega
        · intro hsf
          have hs := h.snapCount hsf
          simp only [hsf, Bool.false_eq_true, if_false, List.length_append,
            List.length_singleton]
          omega
      · simp only [hj, if_true]
        have hnotin : (w, jobOf cfg req) ∉ s.active := fun hmem =>
          hnotinA (List.mem_map_of_mem Prod.fst hmem)
        have herase :
            (s.active ++ [(w, jobOf cfg req)]).erase (w, jobOf cfg req)
              = s.active := by
          rw [List.erase_append_right _ hnotin, List.erase_cons_head]
          simp
        apply wait_inv cfg w
        rw [start_render_eq_raise cfg _ w _ hj]
        dsimp only
        refine { pendEq := rfl, freshW := hnotinW, freshA := ?_,
                 nodup := ?_, slotCount := ?_, waitEmpty := ?_, fifo := ?_,
                 cleanedRes := ?_, cancelsEq := ?_, closesEq := ?_,
                 counts := ?_, snapCount := ?_ }
        · simp only [herase]
          exact hnotinA
        · simp only [herase]
          exact hnd
        · simp only [herase, List.length_cons, List.length_nil] at hsl ⊢
          omega
        · intro _
          exact hp
        · have hf := h.fifo
          rw [hp] at hf
          rw [hp]
          simpa using hf
        · rw [h.cleanedRes]
          simp
        · rw [h.cancelsEq]
        · rw [h.closesEq]
        · intro i
          have hc := h.counts i
          rw [hp] at hc ⊢
          simp only [herase, jidsOf_append, jidsOf_cons, jidsOf_nil,
            List.count_append, List.count_cons, List.count_nil] at hc ⊢
          omega
        · intro hsf
          have hs := h.snapCount hsf
          simp only [hsf, Bool.false_eq_true, if_false, List.length_append,
            List.length_cons, List.length_singleton, List.length_nil]
          omega
  | complete slot ok =>
    rcases hf : s.active.find? (fun p => p.1 == slot) with _ | ⟨sl, jj⟩
    · simpa only [step, hf] using h
    · have hmem : (sl, jj) ∈ s.active := List.mem_of_find?_eq_some hf
      have hperm : s.active.Perm ((sl, jj) :: s.active.erase (sl, jj)) :=
        perm_cons_erase_beq hmem
      have hslmem : sl ∈ activeSlots s.active :=
        List.mem_map_of_mem Prod.fst hmem
      have hmapS : (activeSlots s.active).Perm
          (sl :: activeSlots (s.active.erase (sl, jj))) := hperm.map Prod.fst
      have hnodupA : (activeSlots s.active).Nodup := h.nodup.of_append_right
      have hfreshA : sl ∉ activeSlots (s.active.erase (sl, jj)) :=
        (List.nodup_cons.mp (hmapS.nodup hnodupA)).1
      have hsub : (s.waiting ++ activeSlots (s.active.erase (sl, jj))).Sublist
          (s.waiting ++ activeSlots s.active) :=
        ((List.erase_sublist _ _).map Prod.fst).append_left s.waiting
      simp only [step, hf]
      apply wait_inv cfg sl
      rw [close_render_eq]
      dsimp only
      refine { pendEq := rfl, freshW := ?_, freshA := hfreshA,
               nodup := hsub.nodup h.nodup, slotCount := ?_,
               waitEmpty := h.waitEmpty, fifo := h.fifo,
               cleanedRes := ?_, cancelsEq := ?_, closesEq := ?_,
               counts := ?_, snapCount := ?_ }
      · exact fun hx => List.disjoint_of_nodup_append h.nodup hx hslmem
      · have hlen := hperm.length_eq
        have hsl2 := h.slotCount
        simp only [List.length_cons] at hlen
        dsimp only
        omega
      · rw [h.cleanedRes]
        simp
      · rw [h.cancelsEq]
      · rw [h.closesEq]
      · intro i
        have hc := h.counts i
        have hcj := (hperm.map (fun p => p.2.jid)).count_eq i
        simp only [List.map_cons, List.count_cons] at hcj
        simp only [List.count_append, List.count_cons, List.count_nil,
          activeJids] at hc hcj ⊢
        omega
      · intro hsf
        have hs := h.snapCount hsf
        simp only [hsf, Bool.false_eq_true, if_false, List.length_append,
          List.length_singleton]
        omega

theorem initPool_aux (cfg : PoolConfig) :
    ∀ n : Nat,
      (List.range n).foldl (fun s k => wait_for_render cfg k s.pending s)
        emptyPool = { emptyPool with waiting := List.range n }
  | 0 => rfl
  | n + 1 => by
    rw [List.range_succ, List.foldl_append, initPool_aux cfg n]
    simp [emptyPool, wait_for_render_nil, List.range_succ]

/-- `__init__` establishes the invariant: the fresh pool has `cfg.slots`
distinct slots, all idle and waiting on the empty queue. -/
theorem init_inv (cfg : PoolConfig) : Inv cfg (initPool cfg) := by
  rw [show initPool cfg = { emptyPool with waiting := List.range cfg.slots }
    from initPool_aux cfg cfg.slots]
  refine { nodup := ?_, slotCount := ?_, waitEmpty := ?_, fifo := ?_,
           cleanedRes := ?_, cancelsEq := ?_, closesEq := ?_,
           counts := ?_, snapCount := ?_ } <;>
    simp [emptyPool, jidsOf, activeJids, activeSlots, List.nodup_range]

/-- Every state reachable by running the pool satisfies the invariant. -/
theorem run_inv (cfg : PoolConfig) (events : List Event) :
    Inv cfg (run cfg events) := by
  unfold run
  have hfold : ∀ (l : List Event) (s : PoolState), Inv cfg s →
      Inv cfg (l.foldl (step cfg) s) := by
    intro l
    induction l with
    | nil => exact fun s hs => hs
    | cons e t ih => exact fun s hs => ih _ (step_inv cfg s e hs)
  exact hfold events _ (init_inv cfg)

/-! ## Pools constructed with zero slots -/

/-- The state of a pool constructed with `slots = 0`: no slot loop exists,
so nothing ever waits on the queue, becomes active, or starts; every
submission stays in the queue forever. -/
structure InvZero (s : PoolState) : Prop where
  wEmpty : s.waiting = []
  aEmpty : s.active = []
  sEmpty : s.starts = []
  pSub : s.pending = s.submitted

theorem step_invZero (cfg : PoolConfig) (s : PoolState) (e : Event)
    (h : InvZero s) : InvZero (step cfg s e) := by
  cases e with
  | submit req =>
    simp only [step, h.wEmpty]
    exact { wEmpty := rfl, aEmpty := h.aEmpty, sEmpty := h.sEmpty,
            pSub := by rw [h.pSub] }
  | complete slot ok =>
    simp only [step, h.aEmpty, List.find?_nil]
    exact h

theorem run_invZero (cfg : PoolConfig) (hz : cfg.slots = 0)
    (events : List Event) : InvZero (run cfg events) := by
  unfold run
  have hinit : InvZero (initPool cfg) := by
    rw [show initPool cfg = { emptyPool with waiting := List.range cfg.slots }
      from initPool_aux cfg cfg.slots, hz]
    exact { wEmpty := by simp, aEmpty := rfl, sEmpty := rfl, pSub := rfl }
  have hfold : ∀ (l : List Event) (s : PoolState), InvZero s →
      InvZero (l.foldl (step cfg) s) := by
    intro l
    induction l with
    | nil => exact fun s hs => hs
    | cons e t ih => exact fun s hs => ih _ (step_invZero cfg s e hs)
  exact hfold events _ hinit

/-! ## Congruence in the configuration

`step` reads the configuration only through `cfg.storeFails` (in
`debug_update`), the resolved proxy factory (in `render`) and `cfg.slots`
(in `__init__`); two configurations agreeing there drive the pool
identically. -/

section CfgCongr

variable {cfg1 cfg2 : PoolConfig}

theorem debug_update_congr (hst : cfg1.storeFails = cfg2.storeFails)
    (s : PoolState) : debug_update cfg1 s = debug_update cfg2 s := by
  unfold debug_update
  rw [hst]

theorem close_render_congr (hst : cfg1.storeFails = cfg2.storeFails)
    (slot : Nat) (j : QueuedJob) (s : PoolState) :
    close_render cfg1 slot j s = close_render cfg2 slot j s := by
  simp only [close_render, debug_update_congr hst]

theorem start_render_congr (hst : cfg1.storeFails = cfg2.storeFails)
    (j : QueuedJob) (slot : Nat) (s : PoolState) :
    start_render cfg1 j slot s = start_render cfg2 j slot s := by
  simp only [start_render, debug_update_congr hst, close_render_congr hst]

theorem wait_for_render_congr (hst : cfg1.storeFails = cfg2.storeFails)
    (slot : Nat) :
    ∀ (l : List QueuedJob) (s : PoolState),
      wait_for_render cfg1 slot l s = wait_for_render cfg2 slot l s
  | [], _ => rfl
  | j :: rest, s => by
    rw [wait_for_render_cons, wait_for_render_cons,
      start_render_congr hst]
    cases hj : j.startRaises
    · simp only [hj, Bool.false_eq_true, if_false]
    · simp only [hj, if_true]
      exact wait_for_render_congr hst slot rest _

theorem jobOf_congr (hpf : proxy_factory_cls cfg1 = proxy_factory_cls cfg2)
    (req : SubmitReq) : jobOf cfg1 req = jobOf cfg2 req := by
  unfold jobOf
  rw [hpf]

theorem step_congr (hst : cfg1.storeFails = cfg2.storeFails)
    (hpf : proxy_factory_cls cfg1 = proxy_factory_cls cfg2)
    (s : PoolState) (e : Event) : step cfg1 s e = step cfg2 s e := by
  cases e with
  | submit req =>
    simp only [step, jobOf_congr hpf]
    rcases hw : s.waiting with _ | ⟨w, ws⟩
    · simp only [hw]
    · simp only [hw]
      rw [start_render_congr hst]
      cases hj : (jobOf cfg2 req).startRaises
      · simp only [hj, Bool.false_eq_true, if_false]
      · simp only [hj, if_true]
        exact wait_for_render_congr hst w _ _
  | complete slot ok =>
    simp only [step]
    rcases hf : s.active.find? (fun p => p.1 == slot) with _ | ⟨sl, jj⟩
    · simp only [hf]
    · simp only [hf]
      rw [close_render_congr hst]
      exact wait_for_render_congr hst sl _ _

theorem initPool_congr (hsl : cfg1.slots = cfg2.slots) :
    initPool cfg1 = initPool cfg2 := by
  rw [show initPool cfg1 = { emptyPool with waiting := List.range cfg1.slots }
      from initPool_aux cfg1 cfg1.slots,
    show initPool cfg2 = { emptyPool with waiting := List.range cfg2.slots }
      from initPool_aux cfg2 cfg2.slots, hsl]

theorem run_congr (hsl : cfg1.slots = cfg2.slots)
    (hst : cfg1.storeFails = cfg2.storeFails)
    (hpf : proxy_factory_cls cfg1 = proxy_factory_cls cfg2)
    (events : List Event) : run cfg1 events = run cfg2 events := by
  unfold run
  rw [initPool_congr hsl]
  have hfold : ∀ (l : List Event) (s : PoolState),
      l.foldl (step cfg1) s = l.foldl (step cfg2) s := by
    intro l
    induction l with
    | nil => exact fun _ => rfl
    | cons e t ih =>
      intro s
      rw [List.foldl_cons, List.foldl_cons, step_congr hst hpf, ih]
  exact hfold events _

end CfgCongr

/-! ## The store never influences the pool

Only `debug_update` consults the store, and only the `snapshots` trace
records it; every other component of the state evolves identically whether
or not `self.debug_dbc.set` raises. -/

/-- Forget the snapshot trace. -/
def stripSnapshots (s : PoolState) : PoolState := { s with snapshots := [] }

section Strip

theorem strip_fields {s1 s2 : PoolState}
    (h : stripSnapshots s1 = stripSnapshots s2) :
    s1.pending = s2.pending ∧ s1.waiting = s2.waiting ∧
    s1.active = s2.active ∧ s1.starts = s2.starts ∧
    s1.results = s2.results ∧ s1.cleaned = s2.cleaned ∧
    s1.cancels = s2.cancels ∧ s1.closes = s2.closes ∧
    s1.startFaults = s2.startFaults ∧ s1.cleanupErrors = s2.cleanupErrors ∧
    s1.submitted = s2.submitted := by
  unfold stripSnapshots at h
  injection h with h1 h2 h3 h4 h5 h6 h7 h8 h9 h10 h11 h12
  exact ⟨h1, h2, h3, h4, h5, h6, h7, h8, h9, h10, h12⟩

variable {cfg1 cfg2 : PoolConfig}

theorem strip_close_render (slot : Nat) (j : QueuedJob) {s1 s2 : PoolState}
    (h : stripSnapshots s1 = stripSnapshots s2) :
    stripSnapshots (close_render cfg1 slot j s1)
      = stripSnapshots (close_render cfg2 slot j s2) := by
  obtain ⟨hp, hw, ha, hst, hr, hcl, hca, hco, hsf, hce, hsub⟩ :=
    strip_fields h
  rw [close_render_eq, close_render_eq]
  unfold stripSnapshots
  dsimp only
  simp only [hp, hw, ha, hst, hr, hcl, hca, hco, hsf, hce, hsub]

theorem strip_start_render (j : QueuedJob) (slot : Nat) {s1 s2 : PoolState}
    (h : stripSnapshots s1 = stripSnapshots s2) :
    stripSnapshots (start_render cfg1 j slot s1)
      = stripSnapshots (start_render cfg2 j slot s2) := by
  obtain ⟨hp, hw, ha, hst, hr, hcl, hca, hco, hsf, hce, hsub⟩ :=
    strip_fields h
  cases hj : j.startRaises
  · rw [start_render_eq_ok cfg1 j slot s1 hj,
      start_render_eq_ok cfg2 j slot s2 hj]
    unfold stripSnapshots
    dsimp only
    simp only [hp, hw, ha, hst, hr, hcl, hca, hco, hsf, hce, hsub]
  · rw [start_render_eq_raise cfg1 j slot s1 hj,
      start_render_eq_raise cfg2 j slot s2 hj]
    unfold stripSnapshots
    dsimp only
    simp only [hp, hw, ha, hst, hr, hcl, hca, hco, hsf, hce, hsub]

theorem strip_update_pending (s : PoolState) (l : List QueuedJob) :
    stripSnapshots { s with pending := l }
      = { stripSnapshots s with pending := l } := rfl

theorem strip_wait_for_render (slot : Nat) :
    ∀ (l : List QueuedJob) {s1 s2 : PoolState},
      stripSnapshots s1 = stripSnapshots s2 →
      stripSnapshots (wait_for_render cfg1 slot l s1)
        = stripSnapshots (wait_for_render cfg2 slot l s2)
  | [], s1, s2, h => by
    obtain ⟨hp, hw, ha, hst, hr, hcl, hca, hco, hsf, hce, hsub⟩ :=
      strip_fields h
    rw [wait_for_render_nil, wait_for_render_nil]
    unfold stripSnapshots
    dsimp only
    simp only [hp, hw, ha, hst, hr, hcl, hca, hco, hsf, hce, hsub]
  | j :: rest, s1, s2, h => by
    rw [wait_for_render_cons, wait_for_render_cons]
    have h' : stripSnapshots ({ s1 with pending := rest } : PoolState)
        = stripSnapshots { s2 with pending := rest } := by
      obtain ⟨hp, hw, ha, hst, hr, hcl, hca, hco, hsf, hce, hsub⟩ :=
        strip_fields h
      unfold stripSnapshots
      dsimp only
      simp only [hp, hw, ha, hst, hr, hcl, hca, hco, hsf, hce, hsub]
    have hs := @strip_start_render cfg1 cfg2 j slot _ _ h'
    cases hj : j.startRaises
    · simpa only [hj, Bool.false_eq_true, if_false] using hs
    · simp only [hj, if_true]
      exact strip_wait_for_render slot rest hs

theorem strip_step
    (hpf : proxy_factory_cls cfg1 = proxy_factory_cls cfg2)
    {s1 s2 : PoolState} (h : stripSnapshots s1 = stripSnapshots s2)
    (e : Event) :
    stripSnapshots (step cfg1 s1 e) = stripSnapshots (step cfg2 s2 e) := by
  obtain ⟨hp, hw, ha, hst, hr, hcl, hca, hco, hsf, hce, hsub⟩ :=
    strip_fields h
  cases e with
  | submit req =>
    simp only [step, jobOf_congr hpf]
    have hsub' : stripSnapshots
        ({ s1 with submitted := s1.submitted ++ [jobOf cfg2 req] } : PoolState)
        = stripSnapshots
          { s2 with submitted := s2.submitted ++ [jobOf cfg2 req] } := by
      unfold stripSnapshots
      dsimp only
      simp only [hp, hw, ha, hst, hr, hcl, hca, hco, hsf, hce, hsub]
    rcases hw1 : s1.waiting with _ | ⟨w, ws⟩
    · have hw2 : s2.waiting = [] := by rw [← hw, hw1]
      simp only [hw1, hw2]
      unfold stripSnapshots
      dsimp only
      simp only [hp, hw, ha, hst, hr, hcl, hca, hco, hsf, hce, hsub]
    · have hw2 : s2.waiting = w :: ws := by rw [← hw, hw1]
      simp only [hw1, hw2]
      have h' : stripSnapshots
          ({ s1 with waiting := ws,
                     submitted := s1.submitted ++ [jobOf cfg2 req] } : PoolState)
          = stripSnapshots
            { s2 with waiting := ws,
                      submitted := s2.submitted ++ [jobOf cfg2 req] } := by
        unfold stripSnapshots
        dsimp only
        simp only [hp, hw, ha, hst, hr, hcl, hca, hco, hsf, hce, hsub]
      have hs := @strip_start_render cfg1 cfg2 (jobOf cfg2 req) w _ _ h'
      cases hj : (jobOf cfg2 req).startRaises
      · simpa only [hj, Bool.false_eq_true, if_false] using hs
      · simp only [hj, if_true]
        rw [show (start_render cfg1 (jobOf cfg2 req) w
            { s1 with waiting := ws,
                      submitted := s1.submitted ++ [jobOf cfg2 req] }).pending
          = (start_render cfg2 (jobOf cfg2 req) w
            { s2 with waiting := ws,
                      submitted := s2.submitted ++ [jobOf cfg2 req] }).pending
          from (strip_fields hs).1]
        exact strip_wait_for_render w _ hs
  | complete slot ok =>
    rcases hf : s2.active.find? (fun p => p.1 == slot) with _ | ⟨sl, jj⟩
    · have hf1 : s1.active.find? (fun p => p.1 == slot) = none := by
        rw [ha, hf]
      simp only [step, hf1, hf]
      exact h
    · have hf1 : s1.active.find? (fun p => p.1 == slot) = some (sl, jj) := by
        rw [ha, hf]
      simp only [step, hf1, hf]
      have h' : stripSnapshots
          ({ s1 with results := s1.results ++ [(jj.jid, ok)] } : PoolState)
          = stripSnapshots
            { s2 with results := s2.results ++ [(jj.jid, ok)] } := by
        unfold stripSnapshots
        dsimp only
        simp only [hp, hw, ha, hst, hr, hcl, hca, hco, hsf, hce, hsub]
      have hc := @strip_close_render cfg1 cfg2 sl jj _ _ h'
      rw [show (close_render cfg1 sl jj
          { s1 with results := s1.results ++ [(jj.jid, ok)] }).pending
        = (close_render cfg2 sl jj
          { s2 with results := s2.results ++ [(jj.jid, ok)] }).pending
        from (strip_fields hc).1]
      exact strip_wait_for_render sl _ hc

theorem strip_run (hsl : cfg1.slots = cfg2.slots)
    (hpf : proxy_factory_cls cfg1 = proxy_factory_cls cfg2)
    (events : List Event) :
    stripSnapshots (run cfg1 events) = stripSnapshots (run cfg2 events) := by
  unfold run
  have hfold : ∀ (l : List Event) (s1 s2 : PoolState),
      stripSnapshots s1 = stripSnapshots s2 →
      stripSnapshots (l.foldl (step cfg1) s1)
        = stripSnapshots (l.foldl (step cfg2) s2) := by
    intro l
    induction l with
    | nil => exact fun _ _ h => h
    | cons e t ih =>
      intro s1 s2 h
      exact ih _ _ (strip_step hpf h e)
  exact hfold events _ _ (by rw [initPool_congr hsl])

end Strip

end RenderPool

/-! ## The exception structure of `debug_update` itself

The main model assumes the §6 collaborator contract
(`options.get_url() → string`).  The following model of
`RenderPool.debug_update` alone drops that assumption to analyse which
parts of the method are protected by its `try`/`except`. -/

/-- A render as seen by `debug_update` when the collaborator contract is
not assumed: `render.render_options.get_url()` either returns a string or
raises (`Except.error`). -/
structure DbgRender where
  url : Except String String
deriving Repr

namespace RenderPool

/-- `[render.render_options.get_url() for render in self.active]` — the
list comprehension at the top of `RenderPool.debug_update`, evaluated left
to right, the first exception aborting the whole computation.  In the
source this expression sits OUTSIDE the `try` block. -/
def get_url_list : List DbgRender → Except String (List String)
  | [] => .ok []
  | r :: rest =>
    match r.url with
    | .error e => .error e
    | .ok u =>
      match get_url_list rest with
      | .error e => .error e
      | .ok us => .ok (u :: us)

/-- `RenderPool.debug_update` with its exception behaviour explicit: the
url list is computed before the `try` block, so a `get_url` exception
escapes the method (`Except.error`, propagating to the caller inside
`_start_render` or `_close_render`); only `json.dumps` and
`self.debug_dbc.set` are inside the `try`, whose `except Exception`
handler logs and absorbs store failures, returning normally with nothing
written (`.ok none`).  A successful write returns `.ok (some urls)`. -/
def debug_update_exc (active : List DbgRender) (storeFails : Bool) :
    Except String (Option (List String)) :=
  match get_url_list active with
  | .error e => .error e
  | .ok urls => .ok (if storeFails then none else some urls)

theorem get_url_list_error_iff :
    ∀ l : List DbgRender,
      (∃ e, get_url_list l = Except.error e) ↔
        ∃ r ∈ l, ∃ e, r.url = Except.error e
  | [] => by simp [get_url_list]
  | r :: rest => by
    rcases hu : r.url with e | u
    · simp only [get_url_list, hu]
      exact ⟨fun _ => ⟨r, by simp, e, hu⟩, fun _ => ⟨e, rfl⟩⟩
    · constructor
      · intro he
        rcases he with ⟨e, he⟩
        simp only [get_url_list, hu] at he
        rcases hrest : get_url_list rest with e' | us
        · rcases (get_url_list_error_iff rest).mp ⟨e', hrest⟩
            with ⟨r', hr', e'', hu''⟩
          exact ⟨r', by simp [hr'], e'', hu''⟩
        · rw [hrest] at he
          exact absurd he (by simp)
      · intro hex
        rcases hex with ⟨r', hr', e', hu'⟩
        rcases List.mem_cons.mp hr' with h1 | h1
        · rw [h1, hu] at hu'
          exact absurd hu' (by simp)
        · rcases (get_url_list_error_iff rest).mpr ⟨r', h1, e', hu'⟩
            with ⟨e'', he''⟩
          exact ⟨e'', by simp only [get_url_list, hu, he'']⟩

end RenderPool

section Claims

open RenderPool

/-- **C1.** For every pool configuration and every sequence of submissions
and completions, the active set never exceeds `cfg.slots` members, and the
slot indices occurring in the active set are pairwise distinct — each slot
runs at most one render at a time.  (The step function dequeues a slot's
next job only inside `_wait_for_render`, which runs strictly after
`_close_render` for the previous job, as the `c6` equation shows.) -/
theorem active_le_slots (cfg : PoolConfig) (events : List Event) :
    (run cfg events).active.length ≤ cfg.slots ∧
    (activeSlots (run cfg events).active).Nodup := by
  have h := run_inv cfg events
  refine ⟨?_, h.nodup.of_append_right⟩
  have := h.slotCount
  omega

/-- **C2.** Jobs are dequeued in exact submission order: at every reachable
state, the jids started so far (in the order `_start_render` ran them)
followed by the still-pending jids (in queue order) are exactly the
submitted jids in submission order — so the `k` jobs that have started are
precisely the first `k` submitted, in order.  `put` appends to the queue
tail and `get` takes the head, as the definitions of `step` and
`wait_for_render` embed.  Concretely, J1, J2, J3 submitted in sequence to
a 1-slot pool start in exactly that order. -/
theorem dequeue_in_submission_order (cfg : PoolConfig)
    (events : List Event) :
    ((run cfg events).starts ++ jidsOf (run cfg events).pending
        = jidsOf (run cfg events).submitted) ∧
    (run ⟨1, none, "", 1, false⟩
        [Event.submit ⟨1, "a", none, false, false⟩,
         Event.submit ⟨2, "b", none, false, false⟩,
         Event.submit ⟨3, "c", none, false, false⟩,
         Event.complete 0 true, Event.complete 0 true]).starts
      = [1, 2, 3] := by
  exact ⟨(run_inv cfg events).fifo, by decide⟩

/-- **C5 (counterexample).** The claim says `RenderPool.__init__` validates
`slot_count ≥ 1` and rejects `slots = 0`.  It does not: `__init__` runs
`for n in range(slots)` and performs no validation, so construction with
`slots = 0` succeeds, producing a pool with no slot loop (empty waiting
list), and a submitted job is queued and never started. -/
theorem zero_slots_accepted :
    (initPool ⟨0, none, "", 1, false⟩).waiting = [] ∧
    (run ⟨0, none, "", 1, false⟩
        [Event.submit ⟨1, "a", none, false, false⟩]).pending
      = [⟨1, "a", none, false, false⟩] ∧
    (run ⟨0, none, "", 1, false⟩
        [Event.submit ⟨1, "a", none, false, false⟩]).starts = [] := by
  decide

/-- **C5 (amended).** Constructing a pool with `slots = 0` does not fail:
`__init__` performs no validation and starts zero slot loops, so for every
subsequent event sequence nothing ever waits on the queue, nothing becomes
active, nothing starts, and every submitted job stays pending forever —
the pool silently never executes anything. -/
theorem zero_slots_silently_inert (pf : Option (Option String → Option String))
    (js : String) (v : Nat) (sf : Bool) (events : List Event) :
    (run ⟨0, pf, js, v, sf⟩ events).waiting = [] ∧
    (run ⟨0, pf, js, v, sf⟩ events).active = [] ∧
    (run ⟨0, pf, js, v, sf⟩ events).starts = [] ∧
    (run ⟨0, pf, js, v, sf⟩ events).pending
      = (run ⟨0, pf, js, v, sf⟩ events).submitted := by
  have h := run_invZero ⟨0, pf, js, v, sf⟩ rfl events
  exact ⟨h.wEmpty, h.aEmpty, h.sEmpty, h.pSub⟩

/-- **C7.** Store failures are invisible to the pool: running any event
sequence with the debug store unreachable (`storeFails = true`) produces
exactly the same state as with a healthy store, except for the snapshot
trace itself — in particular the same `pool_d` resolutions, so every job
still completes normally, no render fails, and nothing is retried. -/
theorem store_failure_invisible (cfg : PoolConfig) (events : List Event) :
    stripSnapshots (run { cfg with storeFails := true } events)
      = stripSnapshots (run { cfg with storeFails := false } events) ∧
    (run { cfg with storeFails := true } events).results
      = (run { cfg with storeFails := false } events).results := by
  have h := @strip_run { cfg with storeFails := true }
    { cfg with storeFails := false } rfl rfl events
  exact ⟨h, (strip_fields h).2.2.2.2.1⟩

/-- **C8.** A pool constructed with no proxy factory
(`splash_proxy_factory_cls = None`, replaced by
`lambda profile_name: None` in `__init__`) is observationally identical to
one constructed with an explicit pass-through factory: every run produces
literally the same state, and in both pools every submission resolves the
proxy spec to `None` for the execution unit. -/
theorem proxy_none_eq_passthrough (cfg : PoolConfig) (events : List Event)
    (ps : Option String) :
    run { cfg with splash_proxy_factory_cls := none } events
      = run { cfg with splash_proxy_factory_cls := some (fun _ => none) }
          events ∧
    proxy_factory_cls { cfg with splash_proxy_factory_cls := none } ps
      = none ∧
    proxy_factory_cls
        { cfg with splash_proxy_factory_cls := some (fun _ => none) } ps
      = none := by
  exact ⟨@run_congr
    { cfg with splash_proxy_factory_cls := none }
    { cfg with splash_proxy_factory_cls := some (fun _ => none) }
    rfl rfl rfl events, rfl, rfl⟩

/-- **C9.** In `debug_update` only the serialization and the store write
are inside the `try`: the url list is computed first, so the method
raises (returns `Except.error`) exactly when some active render's
`render_options.get_url()` raises — such an exception escapes
`debug_update` into its caller (`_start_render` or `_close_render`)
instead of being caught and logged, while a store failure alone never
makes the method raise. -/
theorem debug_update_get_url_exc (active : List DbgRender) (sf : Bool) :
    ((∃ e, debug_update_exc active sf = Except.error e) ↔
      ∃ r ∈ active, ∃ e, r.url = Except.error e) ∧
    ((∀ r ∈ active, ∃ u, r.url = Except.ok u) →
      debug_update_exc active sf
        = Except.ok (if sf then none
            else some ((get_url_list active).toOption.getD []))) := by
  constructor
  · rw [← get_url_list_error_iff]
    unfold debug_update_exc
    rcases hl : get_url_list active with e | us
    · simp
    · simp
  · intro hok
    have hno : ¬ ∃ e, get_url_list active = Except.error e := by
      rw [get_url_list_error_iff]
      rintro ⟨r, hr, e, he⟩
      rcases hok r hr with ⟨u, hu⟩
      rw [hu] at he
      exact absurd he (by simp)
    unfold debug_update_exc
    rcases hl : get_url_list active with e | us
    · exact absurd ⟨e, hl⟩ hno
    · simp [Except.toOption]

/-- **C10.** The `js_profiles_path` constructor argument is stored on the
pool but read by no pool operation: two pools differing only in
`js_profiles_path` produce literally identical states (queue, active set,
starts, results, cleanups, snapshots) on every event sequence. -/
theorem js_profiles_path_unused (cfg : PoolConfig) (p1 p2 : String)
    (events : List Event) :
    run { cfg with js_profiles_path := p1 } events
      = run { cfg with js_profiles_path := p2 } events :=
  @run_congr { cfg with js_profiles_path := p1 }
    { cfg with js_profiles_path := p2 } rfl rfl rfl events

/-- **C3.** Cleanup runs exactly once per job, on every exit path: in any
run in which every submitted job has settled (nothing pending, nothing
active), the `_close_render` executions are exactly the submitted jobs —
one cleanup per submission; every cleanup cancelled the render's deferred
and called its `close()`; cleanups happen exactly at `pool_d` resolutions;
and (with a reachable store) the debug snapshot was refreshed at every
active-set mutation.  In particular the active set is empty once all jobs
settle. -/
theorem cleanup_exactly_once (cfg : PoolConfig) (events : List Event)
    (hpend : (run cfg events).pending = [])
    (hact : (run cfg events).active = []) :
    List.Perm (run cfg events).cleaned
      (jidsOf (run cfg events).submitted) ∧
    (run cfg events).cancels = (run cfg events).cleaned ∧
    (run cfg events).closes = (run cfg events).cleaned ∧
    (run cfg events).cleaned = (run cfg events).results.map Prod.fst ∧
    (cfg.storeFails = false →
      (run cfg events).snapshots.length
        = (run cfg events).starts.length
          + (run cfg events).cleaned.length) := by
  have h := run_inv cfg events
  refine ⟨?_, h.cancelsEq, h.closesEq, h.cleanedRes, h.snapCount⟩
  rw [List.perm_iff_count]
  intro a
  have hc := h.counts a
  rw [hpend, hact] at hc
  simp only [jidsOf_nil, activeJids_nil, List.count_nil] at hc
  omega

/-- 2-slot pool for the 10-job mixed-outcome scenario of C3. -/
def cfgTen : PoolConfig := ⟨2, none, "", 1, false⟩

/-- Ten jobs mixing success (1, 4, 8, 10), execution failure (3, 5, 7),
synchronous `start` exceptions (2, 6, 9) and a `close()` that raises
during cleanup (5, 9), interleaved on both slots. -/
def evsTen : List Event :=
  [Event.submit ⟨1, "a", none, false, false⟩,
   Event.submit ⟨2, "b", none, true, false⟩,
   Event.submit ⟨3, "c", none, false, false⟩,
   Event.submit ⟨4, "d", none, false, false⟩,
   Event.submit ⟨5, "e", none, false, true⟩,
   Event.complete 0 true,
   Event.complete 1 false,
   Event.submit ⟨6, "f", none, true, false⟩,
   Event.submit ⟨7, "g", none, false, false⟩,
   Event.complete 0 true,
   Event.complete 1 false,
   Event.submit ⟨8, "h", none, false, false⟩,
   Event.submit ⟨9, "i", none, true, true⟩,
   Event.submit ⟨10, "j", none, false, false⟩,
   Event.complete 0 false,
   Event.complete 1 true,
   Event.complete 0 true]

theorem cleanup_exactly_once_witness :
    ((run cfgTen evsTen).pending = [] ∧ (run cfgTen evsTen).active = []) ∧
    (List.Perm (run cfgTen evsTen).cleaned
        (jidsOf (run cfgTen evsTen).submitted) ∧
     (run cfgTen evsTen).cancels = (run cfgTen evsTen).cleaned ∧
     (run cfgTen evsTen).closes = (run cfgTen evsTen).cleaned ∧
     (run cfgTen evsTen).cleaned
        = (run cfgTen evsTen).results.map Prod.fst ∧
     (cfgTen.storeFails = false →
       (run cfgTen evsTen).snapshots.length
         = (run cfgTen evsTen).starts.length
           + (run cfgTen evsTen).cleaned.length)) :=
  ⟨⟨by decide, by decide⟩,
   cleanup_exactly_once cfgTen evsTen (by decide) (by decide)⟩

/-- **C4.** Submitting a job whose `start` raises synchronously to a pool
with an idle slot: the job's `pool_d` is resolved with a failure
(`results` gains `(jid, false)`), the raised fault escapes
`_start_render` rather than being swallowed (`startFaults` gains the jid),
the slot still proceeds through `_close_render` (`cleaned`/`closes` gain
the jid, the render leaves the active set), and the slot re-arms on the
queue, remaining available.  Concretely, on a 1-slot pool J1 whose start
raises followed by J2 that succeeds: J2 still runs and succeeds. -/
theorem start_raise_contained (cfg : PoolConfig) (s : PoolState)
    (req : SubmitReq) (w : Nat) (ws : List Nat)
    (hw : s.waiting = w :: ws) (hp : s.pending = [])
    (hfree : w ∉ activeSlots s.active) (hr : req.startRaises = true) :
    ((step cfg s (Event.submit req)).results
        = s.results ++ [(req.jid, false)] ∧
     (step cfg s (Event.submit req)).startFaults
        = s.startFaults ++ [req.jid] ∧
     (step cfg s (Event.submit req)).cleaned = s.cleaned ++ [req.jid] ∧
     (step cfg s (Event.submit req)).closes = s.closes ++ [req.jid] ∧
     (step cfg s (Event.submit req)).active = s.active ∧
     (step cfg s (Event.submit req)).waiting = ws ++ [w] ∧
     (step cfg s (Event.submit req)).starts = s.starts ++ [req.jid]) ∧
    ((run ⟨1, none, "", 1, false⟩
        [Event.submit ⟨1, "a", none, true, false⟩,
         Event.submit ⟨2, "b", none, false, false⟩,
         Event.complete 0 true]).results = [(1, false), (2, true)] ∧
     (run ⟨1, none, "", 1, false⟩
        [Event.submit ⟨1, "a", none, true, false⟩,
         Event.submit ⟨2, "b", none, false, false⟩,
         Event.complete 0 true]).startFaults = [1] ∧
     (run ⟨1, none, "", 1, false⟩
        [Event.submit ⟨1, "a", none, true, false⟩,
         Event.submit ⟨2, "b", none, false, false⟩,
         Event.complete 0 true]).active = [] ∧
     (run ⟨1, none, "", 1, false⟩
        [Event.submit ⟨1, "a", none, true, false⟩,
         Event.submit ⟨2, "b", none, false, false⟩,
         Event.complete 0 true]).cleaned = [1, 2]) := by
  have hj : (jobOf cfg req).startRaises = true := hr
  have hnotin : (w, jobOf cfg req) ∉ s.active := fun hm =>
    hfree (List.mem_map_of_mem Prod.fst hm)
  have herase :
      (s.active ++ [(w, jobOf cfg req)]).erase (w, jobOf cfg req)
        = s.active := by
    rw [List.erase_append_right _ hnotin, List.erase_cons_head]
    simp
  have hstep : step cfg s (Event.submit req)
      = { s with
          submitted := s.submitted ++ [jobOf cfg req],
          waiting := ws ++ [w],
          starts := s.starts ++ [req.jid],
          results := s.results ++ [(req.jid, false)],
          startFaults := s.startFaults ++ [req.jid],
          cleaned := s.cleaned ++ [req.jid],
          cancels := s.cancels ++ [req.jid],
          closes := s.closes ++ [req.jid],
          cleanupErrors := if req.closeRaises
            then s.cleanupErrors ++ [req.jid] else s.cleanupErrors,
          snapshots := if cfg.storeFails then s.snapshots
            else s.snapshots ++
              [snapshotUrls (s.active ++ [(w, jobOf cfg req)]),
               snapshotUrls s.active] } := by
    simp only [step, hw, hj, if_true]
    rw [start_render_eq_raise cfg _ w _ hj]
    dsimp only
    rw [hp, wait_for_render_nil]
    dsimp only [jobOf] at herase ⊢
    rw [herase]
  exact ⟨⟨by rw [hstep], by rw [hstep], by rw [hstep], by rw [hstep],
          by rw [hstep], by rw [hstep], by rw [hstep]⟩, by decide⟩

/-- 1-slot pool whose single job start-raises, for the C4 witness. -/
def cfgRaise : PoolConfig := ⟨1, none, "", 1, false⟩

theorem start_raise_contained_witness :
    ((initPool cfgRaise).waiting = 0 :: [] ∧
     (initPool cfgRaise).pending = [] ∧
     0 ∉ activeSlots (initPool cfgRaise).active ∧
     (⟨7, "x", none, true, true⟩ : SubmitReq).startRaises = true) ∧
    (((step cfgRaise (initPool cfgRaise)
          (Event.submit ⟨7, "x", none, true, true⟩)).results
        = (initPool cfgRaise).results ++ [(7, false)] ∧
      (step cfgRaise (initPool cfgRaise)
          (Event.submit ⟨7, "x", none, true, true⟩)).startFaults
        = (initPool cfgRaise).startFaults ++ [7] ∧
      (step cfgRaise (initPool cfgRaise)
          (Event.submit ⟨7, "x", none, true, true⟩)).cleaned
        = (initPool cfgRaise).cleaned ++ [7] ∧
      (step cfgRaise (initPool cfgRaise)
          (Event.submit ⟨7, "x", none, true, true⟩)).closes
        = (initPool cfgRaise).closes ++ [7] ∧
      (step cfgRaise (initPool cfgRaise)
          (Event.submit ⟨7, "x", none, true, true⟩)).active
        = (initPool cfgRaise).active ∧
      (step cfgRaise (initPool cfgRaise)
          (Event.submit ⟨7, "x", none, true, true⟩)).waiting = [] ++ [0] ∧
      (step cfgRaise (initPool cfgRaise)
          (Event.submit ⟨7, "x", none, true, true⟩)).starts
        = (initPool cfgRaise).starts ++ [7]) ∧
     ((run ⟨1, none, "", 1, false⟩
        [Event.submit ⟨1, "a", none, true, false⟩,
         Event.submit ⟨2, "b", none, false, false⟩,
         Event.complete 0 true]).results = [(1, false), (2, true)] ∧
      (run ⟨1, none, "", 1, false⟩
        [Event.submit ⟨1, "a", none, true, false⟩,
         Event.submit ⟨2, "b", none, false, false⟩,
         Event.complete 0 true]).startFaults = [1] ∧
      (run ⟨1, none, "", 1, false⟩
        [Event.submit ⟨1, "a", none, true, false⟩,
         Event.submit ⟨2, "b", none, false, false⟩,
         Event.complete 0 true]).active = [] ∧
      (run ⟨1, none, "", 1, false⟩
        [Event.submit ⟨1, "a", none, true, false⟩,
         Event.submit ⟨2, "b", none, false, false⟩,
         Event.complete 0 true]).cleaned = [1, 2])) :=
  ⟨⟨by decide, by decide, by decide, by decide⟩,
   start_raise_contained cfgRaise (initPool cfgRaise)
     ⟨7, "x", none, true, true⟩ 0 [] (by decide) (by decide) (by decide)
     (by decide)⟩

/-- **C6.** When the render running in a slot settles, the slot
unconditionally returns to Idle: whatever the outcome `ok` and whether or
not the job's `close()` raises during cleanup (`j.closeRaises`), the slot
re-arms on the queue's waiting list, the render leaves the active set,
cleanup runs, and a `close()` error is only recorded in the cleanup-error
trace (the log) — it never reaches `startFaults` (nothing is re-raised
into the slot loop) and never prevents the re-arm.  (Hypothesis
`hp : pending = []` only fixes where the slot re-arms to; with jobs
pending the slot would instead start the next one, per
`wait_for_render`.) -/
theorem close_rearms_unconditionally (cfg : PoolConfig) (s : PoolState)
    (slot : Nat) (j : QueuedJob) (ok : Bool)
    (hf : s.active.find? (fun p => p.1 == slot) = some (slot, j))
    (hp : s.pending = []) :
    (step cfg s (Event.complete slot ok)).waiting = s.waiting ++ [slot] ∧
    (step cfg s (Event.complete slot ok)).active
      = s.active.erase (slot, j) ∧
    (step cfg s (Event.complete slot ok)).results
      = s.results ++ [(j.jid, ok)] ∧
    (step cfg s (Event.complete slot ok)).cleaned
      = s.cleaned ++ [j.jid] ∧
    (step cfg s (Event.complete slot ok)).cancels
      = s.cancels ++ [j.jid] ∧
    (step cfg s (Event.complete slot ok)).closes
      = s.closes ++ [j.jid] ∧
    (step cfg s (Event.complete slot ok)).cleanupErrors
      = (if j.closeRaises then s.cleanupErrors ++ [j.jid]
         else s.cleanupErrors) ∧
    (step cfg s (Event.complete slot ok)).startFaults = s.startFaults ∧
    (step cfg s (Event.complete slot ok)).starts = s.starts := by
  have hstep : step cfg s (Event.complete slot ok)
      = { s with
          waiting := s.waiting ++ [slot],
          active := s.active.erase (slot, j),
          results := s.results ++ [(j.jid, ok)],
          cleaned := s.cleaned ++ [j.jid],
          cancels := s.cancels ++ [j.jid],
          closes := s.closes ++ [j.jid],
          cleanupErrors := if j.closeRaises
            then s.cleanupErrors ++ [j.jid] else s.cleanupErrors,
          snapshots := if cfg.storeFails then s.snapshots
            else s.snapshots
              ++ [snapshotUrls (s.active.erase (slot, j))] } := by
    simp only [step, hf]
    rw [close_render_eq]
    dsimp only
    rw [hp, wait_for_render_nil]
  exact ⟨by rw [hstep], by rw [hstep], by rw [hstep], by rw [hstep],
         by rw [hstep], by rw [hstep], by rw [hstep], by rw [hstep],
         by rw [hstep]⟩

/-- 1-slot pool whose single running job's `close()` raises, for the C6
witness. -/
def cfgClose : PoolConfig := ⟨1, none, "", 1, false⟩

/-- The C6 witness state: one job with a raising `close()` is running in
slot 0. -/
def sClose : PoolState :=
  run cfgClose [Event.submit ⟨1, "a", none, false, true⟩]

theorem close_rearms_unconditionally_witness :
    (sClose.active.find? (fun p => p.1 == 0)
        = some (0, ⟨1, "a", none, false, true⟩) ∧
     sClose.pending = []) ∧
    ((step cfgClose sClose (Event.complete 0 false)).waiting
        = sClose.waiting ++ [0] ∧
     (step cfgClose sClose (Event.complete 0 false)).active
        = sClose.active.erase (0, ⟨1, "a", none, false, true⟩) ∧
     (step cfgClose sClose (Event.complete 0 false)).results
        = sClose.results ++ [(1, false)] ∧
     (step cfgClose sClose (Event.complete 0 false)).cleaned
        = sClose.cleaned ++ [1] ∧
     (step cfgClose sClose (Event.complete 0 false)).cancels
        = sClose.cancels ++ [1] ∧
     (step cfgClose sClose (Event.complete 0 false)).closes
        = sClose.closes ++ [1] ∧
     (step cfgClose sClose (Event.complete 0 false)).cleanupErrors
        = (if (⟨1, "a", none, false, true⟩ : QueuedJob).closeRaises
           then sClose.cleanupErrors ++ [1] else sClose.cleanupErrors) ∧
     (step cfgClose sClose (Event.complete 0 false)).startFaults
        = sClose.startFaults ∧
     (step cfgClose sClose (Event.complete 0 false)).starts
        = sClose.starts) :=
  ⟨⟨by decide, by decide⟩,
   close_rearms_unconditionally cfgClose sClose 0
     ⟨1, "a", none, false, true⟩ false (by decide) (by decide)⟩

end Claims

end Splash
